import Mathlib

/-!
Verification of the before/after copy comparer coreance algorithms.

The development shallowly embeds the JavaScript sources
(`src/utils/textAnalysis.js`, `src/utils/diff.js`) into Lean:

* texts are `List Char` (JS strings, one entry per UTF-16-ish code point);
* JS numbers are modelled as exact rationals `ℚ` (the arithmetic performed by
  the analyzer stays within small exact values; IEEE-754 rounding is not
  modelled);
* the regular expressions used by the source are embedded as executable
  scanners implementing the exact leftmost / greedy / backtracking semantics
  of the JS regex engine for those concrete patterns.
-/

namespace CopyComparer

/-- JS `\s` (and `String.prototype.trim`) whitespace class, by code point. -/
def jsWhitespace (c : Char) : Bool :=
  let n := c.toNat
  n = 9 || n = 10 || n = 11 || n = 12 || n = 13 || n = 32 || n = 160 ||
  n = 5760 || (8192 ≤ n && n ≤ 8202) || n = 8232 || n = 8233 ||
  n = 8239 || n = 8287 || n = 12288 || n = 65279

/-- JS `String.prototype.trim`: strip leading and trailing whitespace. -/
def jsTrim (l : List Char) : List Char :=
  ((l.dropWhile jsWhitespace).reverse.dropWhile jsWhitespace).reverse

/-- Tokenize text into words and whitespace (`text.match(/\S+|\s+/g) || []`):
the maximal runs of non-whitespace resp. whitespace characters, in order. -/
def tokenize : List Char → List (List Char)
  | [] => []
  | c :: cs =>
    let p := fun d => jsWhitespace d == jsWhitespace c
    (c :: cs).takeWhile p :: tokenize ((c :: cs).dropWhile p)
termination_by l => l.length
decreasing_by
  simp only [List.dropWhile_cons, beq_self_eq_true, if_true]
  have := (List.dropWhile_sublist (l := cs)
    (p := fun d => jsWhitespace d == jsWhitespace c)).length_le
  simp only [List.length_cons]
  omega

/-- The word tokens used for the LCS alignment: the tokens whose `trim` is
nonempty (`tokens.filter(t => t.trim() !== '')` in `computeDiff`). -/
def wordTokens (text : List Char) : List (List Char) :=
  (tokenize text).filter (fun t => decide (jsTrim t ≠ []))

/-- The tag of a diff operation (`'equal' | 'insert' | 'delete'`). -/
inductive OpType where
  | equal
  | insert
  | delete
deriving DecidableEq

/-- One diff operation `{ type, value }`. -/
structure DiffOp where
  typ : OpType
  value : List Char
deriving DecidableEq

/-- The LCS dynamic-programming table of `diff.js`: `lcsTable a b i j` is
`dp[i][j]`, with `dp[0][*] = dp[*][0] = 0` and
`dp[i][j] = dp[i-1][j-1] + 1` when `a[i-1] === b[j-1]`, else
`max(dp[i-1][j], dp[i][j-1])`. -/
def lcsTable (a b : List (List Char)) : Nat → Nat → Nat
  | 0, _ => 0
  | _ + 1, 0 => 0
  | i + 1, j + 1 =>
    if a.getD i [] = b.getD j [] then
      lcsTable a b i j + 1
    else
      max (lcsTable a b i (j + 1)) (lcsTable a b (i + 1) j)
termination_by i j => i + j
decreasing_by all_goals omega

/-- Backtrack through the LCS table (`backtrack` in `diff.js`).  The JS loop
runs `i`, `j` downward and `unshift`s each op, so the op emitted at `(i, j)`
ends up after all ops emitted at smaller indices; the recursion appends it. -/
def backtrack (dp : Nat → Nat → Nat) (a b : List (List Char)) :
    Nat → Nat → List DiffOp
  | i, j =>
    if i = 0 ∧ j = 0 then []
    else if h : 0 < i ∧ 0 < j ∧ a.getD (i - 1) [] = b.getD (j - 1) [] then
      backtrack dp a b (i - 1) (j - 1) ++ [⟨OpType.equal, a.getD (i - 1) []⟩]
    else if h' : 0 < j ∧ (i = 0 ∨ dp (i - 1) j ≤ dp i (j - 1)) then
      backtrack dp a b i (j - 1) ++ [⟨OpType.insert, b.getD (j - 1) []⟩]
    else
      backtrack dp a b (i - 1) j ++ [⟨OpType.delete, a.getD (i - 1) []⟩]
termination_by i j => i + j
decreasing_by all_goals omega

/-- `computeDiff` from `diff.js`: tokenize both texts, keep the word tokens,
and backtrack through their LCS table. -/
def computeDiff (beforeText afterText : List Char) : List DiffOp :=
  let beforeWords := wordTokens beforeText
  let afterWords := wordTokens afterText
  backtrack (lcsTable beforeWords afterWords) beforeWords afterWords
    beforeWords.length afterWords.length

/-- A view-ready token `{ text, highlighted }`. -/
structure DisplaySegment where
  text : List Char
  highlighted : Bool
deriving DecidableEq

/-- `getBeforeView`: keep `equal` and `delete` ops, highlighting deletions. -/
def getBeforeView (ops : List DiffOp) : List DisplaySegment :=
  (ops.filter (fun op => decide (op.typ = OpType.equal ∨ op.typ = OpType.delete))).map
    (fun op => ⟨op.value, decide (op.typ = OpType.delete)⟩)

/-- `getAfterView`: keep `equal` and `insert` ops, highlighting insertions. -/
def getAfterView (ops : List DiffOp) : List DisplaySegment :=
  (ops.filter (fun op => decide (op.typ = OpType.equal ∨ op.typ = OpType.insert))).map
    (fun op => ⟨op.value, decide (op.typ = OpType.insert)⟩)

/-! ### Spec-side definitions for the differ (transcribed from the spec text) -/

/-- Modelled from the spec's description of the table (§4.2): the standard
LCS dp table with `dp[0][*] = dp[*][0] = 0` and recurrence
`dp[i][j] = dp[i-1][j-1]+1` if `A[i-1] == B[j-1]`, else
`max(dp[i-1][j], dp[i][j-1])`. -/
def specDp (a b : List (List Char)) : Nat → Nat → Nat
  | 0, _ => 0
  | _ + 1, 0 => 0
  | i + 1, j + 1 =>
    if a.getD i [] = b.getD j [] then
      specDp a b i j + 1
    else
      max (specDp a b i (j + 1)) (specDp a b (i + 1) j)
termination_by i j => i + j
decreasing_by all_goals omega

/-- The spec's backtracking step rule, ops built in reverse (prepended to the
accumulator) and output in forward order: from `(i, j)`, if both indices are
positive and the tokens at `i-1`, `j-1` match, emit `Equal` and move
diagonally; else if `j > 0` and (`i == 0` or `dp[i][j-1] >= dp[i-1][j]`), emit
`Insert` for `B[j-1]` and decrement `j`; else emit `Delete` for `A[i-1]` and
decrement `i`. -/
def specBacktrack (dp : Nat → Nat → Nat) (a b : List (List Char)) :
    Nat → Nat → List DiffOp → List DiffOp
  | i, j, acc =>
    if i = 0 ∧ j = 0 then acc
    else if h : 0 < i ∧ 0 < j ∧ a.getD (i - 1) [] = b.getD (j - 1) [] then
      specBacktrack dp a b (i - 1) (j - 1) (⟨OpType.equal, a.getD (i - 1) []⟩ :: acc)
    else if h' : 0 < j ∧ (i = 0 ∨ dp (i - 1) j ≤ dp i (j - 1)) then
      specBacktrack dp a b i (j - 1) (⟨OpType.insert, b.getD (j - 1) []⟩ :: acc)
    else
      specBacktrack dp a b (i - 1) j (⟨OpType.delete, a.getD (i - 1) []⟩ :: acc)
termination_by i j _ => i + j
decreasing_by all_goals omega

/-- The edit script the spec prescribes for two word sequences: backtrack the
standard LCS dp table from `(m, n)` down to `(0, 0)`. -/
def specScript (a b : List (List Char)) : List DiffOp :=
  specBacktrack (specDp a b) a b a.length b.length []

/-! ### Lemmas about the differ -/

theorem take_eq_take_append_getD (a : List (List Char)) (i : Nat)
    (h0 : 0 < i) (h : i ≤ a.length) :
    a.take i = a.take (i - 1) ++ [a.getD (i - 1) []] := by
  obtain ⟨k, rfl⟩ : ∃ k, i = k + 1 := ⟨i - 1, by omega⟩
  have hk : k < a.length := by omega
  rw [List.take_succ]
  simp [List.getD_eq_getElem?_getD, List.getElem?_eq_getElem hk]

/-- Backtracking over any table reconstructs both inputs: the `equal`/`delete`
values are the first `i` tokens of `a`, the `equal`/`insert` values the first
`j` tokens of `b`. -/
theorem backtrack_reconstruct (dp : Nat → Nat → Nat) (a b : List (List Char)) :
    ∀ i j, i ≤ a.length → j ≤ b.length →
    ((backtrack dp a b i j).filter
        (fun op => decide (op.typ = OpType.equal ∨ op.typ = OpType.delete))).map
        DiffOp.value = a.take i ∧
    ((backtrack dp a b i j).filter
        (fun op => decide (op.typ = OpType.equal ∨ op.typ = OpType.insert))).map
        DiffOp.value = b.take j := by
  intro i j
  induction i, j using backtrack.induct dp a b with
  | case1 i j hz =>
    intro _ _
    obtain ⟨rfl, rfl⟩ := hz
    rw [backtrack, if_pos ⟨rfl, rfl⟩]
    simp
  | case2 i j hz h ih =>
    intro hi hj
    obtain ⟨hi0, hj0, hab⟩ := h
    have hab' : a[i - 1]?.getD [] = b[j - 1]?.getD [] := by
      simpa [List.getD_eq_getElem?_getD] using hab
    obtain ⟨ih1, ih2⟩ := ih (by omega) (by omega)
    have hcond : 0 < i ∧ 0 < j ∧ a.getD (i - 1) [] = b.getD (j - 1) [] :=
      ⟨hi0, hj0, hab⟩
    rw [backtrack, if_neg hz, dif_pos hcond,
      take_eq_take_append_getD a i hi0 hi, take_eq_take_append_getD b j hj0 hj]
    constructor
    · rw [List.filter_append, List.map_append, ih1]
      simp
    · rw [List.filter_append, List.map_append, ih2]
      simp [hab']
  | case3 i j hz h hins ih =>
    intro hi hj
    have hj0 : 0 < j := hins.1
    obtain ⟨ih1, ih2⟩ := ih hi (by omega)
    rw [backtrack, if_neg hz, dif_neg h, dif_pos hins,
      take_eq_take_append_getD b j hj0 hj]
    constructor
    · rw [List.filter_append, List.map_append, ih1]
      simp
    · rw [List.filter_append, List.map_append, ih2]
      simp
  | case4 i j hz h hins ih =>
    intro hi hj
    have hi0 : 0 < i := by
      rcases Nat.eq_zero_or_pos i with h0 | h0
      · exact absurd ⟨by omega, Or.inl h0⟩ hins
      · exact h0
    obtain ⟨ih1, ih2⟩ := ih (by omega) hj
    rw [backtrack, if_neg hz, dif_neg h, dif_neg hins,
      take_eq_take_append_getD a i hi0 hi]
    constructor
    · rw [List.filter_append, List.map_append, ih1]
      simp
    · rw [List.filter_append, List.map_append, ih2]
      simp

/-- **C1.** For every pair of strings `A`, `B`, filtering `computeDiff A B` to
the ops of type `equal` or `delete` and taking their values yields exactly the
word-token sequence of `A`, and filtering to `equal` or `insert` yields
exactly the word-token sequence of `B`. -/
theorem computeDiff_reconstructs (A B : List Char) :
    ((computeDiff A B).filter
        (fun op => decide (op.typ = OpType.equal ∨ op.typ = OpType.delete))).map
        DiffOp.value = wordTokens A ∧
    ((computeDiff A B).filter
        (fun op => decide (op.typ = OpType.equal ∨ op.typ = OpType.insert))).map
        DiffOp.value = wordTokens B := by
  have h := backtrack_reconstruct
    (lcsTable (wordTokens A) (wordTokens B)) (wordTokens A) (wordTokens B)
    (wordTokens A).length (wordTokens B).length le_rfl le_rfl
  simpa [computeDiff, List.take_length] using h

/-- Backtracking a sequence against itself takes the `equal` branch at every
step, whatever the table contains. -/
theorem backtrack_diag (dp : Nat → Nat → Nat) (a : List (List Char)) :
    ∀ i, i ≤ a.length →
    backtrack dp a a i i = (a.take i).map (fun w => ⟨OpType.equal, w⟩) := by
  intro i
  induction i with
  | zero => intro _; rw [backtrack, if_pos ⟨rfl, rfl⟩]; simp
  | succ k ih =>
    intro hk
    have hcond : 0 < k + 1 ∧ 0 < k + 1 ∧
        a.getD (k + 1 - 1) [] = a.getD (k + 1 - 1) [] :=
      ⟨Nat.succ_pos k, Nat.succ_pos k, rfl⟩
    rw [backtrack, if_neg (by omega), dif_pos hcond]
    simp only [Nat.add_sub_cancel]
    rw [ih (by omega), take_eq_take_append_getD a (k + 1) (Nat.succ_pos k) hk]
    simp

/-- **C3.** For every string `S`, `computeDiff S S` consists of `equal` ops
only, and their values are exactly the word tokens of `S`. -/
theorem computeDiff_self (S : List Char) :
    (∀ op ∈ computeDiff S S, op.typ = OpType.equal) ∧
    (computeDiff S S).map DiffOp.value = wordTokens S := by
  have h : computeDiff S S =
      (wordTokens S).map (fun w => ⟨OpType.equal, w⟩) := by
    unfold computeDiff
    rw [backtrack_diag _ (wordTokens S) (wordTokens S).length le_rfl]
    simp [List.take_length]
  constructor
  · intro op hop
    rw [h] at hop
    obtain ⟨w, _, rfl⟩ := List.mem_map.mp hop
    rfl
  · rw [h]
    simp [Function.comp_def]

/-- The spec's dp table and the implementation's table agree everywhere. -/
theorem specDp_eq_lcsTable (a b : List (List Char)) :
    ∀ i j, specDp a b i j = lcsTable a b i j := by
  intro i j
  induction i, j using specDp.induct a b with
  | case1 j => rw [specDp, lcsTable]
  | case2 i => rw [specDp, lcsTable]
  | case3 i j hab ih => rw [specDp, lcsTable, if_pos hab, if_pos hab, ih]
  | case4 i j hab ih1 ih2 =>
    rw [specDp, lcsTable, if_neg hab, if_neg hab, ih1, ih2]

/-- The accumulator form of the spec's backtracking equals the append form of
the implementation. -/
theorem specBacktrack_eq (dp : Nat → Nat → Nat) (a b : List (List Char)) :
    ∀ i j acc, specBacktrack dp a b i j acc = backtrack dp a b i j ++ acc := by
  intro i j
  induction i, j using backtrack.induct dp a b with
  | case1 i j hz =>
    intro acc
    rw [specBacktrack, backtrack, if_pos hz, if_pos hz]
    simp
  | case2 i j hz h ih =>
    intro acc
    rw [specBacktrack, backtrack, if_neg hz, if_neg hz, dif_pos h, dif_pos h,
      ih]
    simp
  | case3 i j hz h hins ih =>
    intro acc
    rw [specBacktrack, backtrack, if_neg hz, if_neg hz, dif_neg h, dif_neg h,
      dif_pos hins, dif_pos hins, ih]
    simp
  | case4 i j hz h hins ih =>
    intro acc
    rw [specBacktrack, backtrack, if_neg hz, if_neg hz, dif_neg h, dif_neg h,
      dif_neg hins, dif_neg hins, ih]
    simp

/-- **C2.** The edit script produced by `computeDiff` is exactly the script
prescribed by the spec: backtrack the standard LCS dp table from `(m, n)` to
`(0, 0)` with the spec's step rule (Insert preferred on ties, ops built in
reverse and output in forward order). -/
theorem computeDiff_eq_specScript (A B : List Char) :
    computeDiff A B = specScript (wordTokens A) (wordTokens B) := by
  unfold computeDiff specScript
  rw [specBacktrack_eq]
  have hdp : specDp (wordTokens A) (wordTokens B) =
      lcsTable (wordTokens A) (wordTokens B) := by
    funext i j
    exact specDp_eq_lcsTable (wordTokens A) (wordTokens B) i j
  rw [hdp]
  simp

/-! ### Character classes and string helpers for `textAnalysis.js` -/

/-- ASCII letter (`[a-zA-Z]`). -/
def asciiLetter (c : Char) : Bool :=
  (65 ≤ c.toNat && c.toNat ≤ 90) || (97 ≤ c.toNat && c.toNat ≤ 122)

/-- JS `\w` (`[A-Za-z0-9_]`). -/
def isWordChar (c : Char) : Bool :=
  asciiLetter c || (48 ≤ c.toNat && c.toNat ≤ 57) || c.toNat = 95

/-- The character class `[a-zA-Z'-]` of the word regex. -/
def wordClass (c : Char) : Bool :=
  asciiLetter c || c.toNat = 39 || c.toNat = 45

/-- `String.prototype.toLowerCase`, restricted to the ASCII range the source
exercises. -/
def jsToLower (c : Char) : Char :=
  if 65 ≤ c.toNat ∧ c.toNat ≤ 90 then Char.ofNat (c.toNat + 32) else c

/-- `String.prototype.toUpperCase`, restricted to ASCII. -/
def jsToUpper (c : Char) : Char :=
  if 97 ≤ c.toNat ∧ c.toNat ≤ 122 then Char.ofNat (c.toNat - 32) else c

/-- Lower-case ASCII letter (`[a-z]`, the complement of `[^a-z]`). -/
def lowerAZ (c : Char) : Bool :=
  97 ≤ c.toNat && c.toNat ≤ 122

/-- `l` ends with `suf` (`String.prototype.endsWith`). -/
def endsWithCh (l suf : List Char) : Bool :=
  suf.isSuffixOf l

/-- The vowel class `[aeiouy]` of the syllable counter. -/
def isVowelY (c : Char) : Bool :=
  c = 'a' || c = 'e' || c = 'i' || c = 'o' || c = 'u' || c = 'y'

/-- Number of maximal `[aeiouy]+` runs; `inRun` records whether the previous
character was a vowel. -/
def vowelRunsAux (inRun : Bool) : List Char → Nat
  | [] => 0
  | c :: cs =>
    if isVowelY c && !inRun then 1 + vowelRunsAux true cs
    else vowelRunsAux (isVowelY c) cs

/-- `word.match(/[aeiouy]+/g)` — the number of maximal vowel-group runs. -/
def vowelRuns (l : List Char) : Nat :=
  vowelRunsAux false l

/-- `countSyllables` from `textAnalysis.js`: lower-case and keep `[a-z]`;
empty → 0; length ≤ 2 → 1; no vowel group → 1; otherwise the vowel-run count
adjusted for silent-`e`, `-es`, `-ed` endings, floored at 1. -/
def countSyllables (word : List Char) : Nat :=
  let w := (word.map jsToLower).filter lowerAZ
  if w = [] then 0
  else if w.length ≤ 2 then 1
  else
    let base := vowelRuns w
    if base = 0 then 1
    else
      let c1 :=
        if endsWithCh w ['e'] && !endsWithCh w ['l', 'e'] && decide (1 < base)
        then base - 1 else base
      let c2 :=
        if endsWithCh w ['e', 's'] && !endsWithCh w ['t', 'e', 's'] &&
           !endsWithCh w ['s', 'e', 's'] && decide (1 < c1)
        then c1 - 1 else c1
      let c3 :=
        if endsWithCh w ['e', 'd'] && !endsWithCh w ['t', 'e', 'd'] &&
           !endsWithCh w ['d', 'e', 'd'] && decide (1 < c2)
        then c2 - 1 else c2
      max 1 c3

/-! ### The word regex `/\b[a-zA-Z'-]+\b/g` as an executable scanner -/

/-- Word-character status of an optional character (out of the string counts
as non-word for `\b`). -/
def wordnessO : Option Char → Bool
  | none => false
  | some c => isWordChar c

/-- The character at the position right after `cs` inside the run, falling
back to the first character after the whole run. -/
def afterChar (cs : List Char) (next : Option Char) : Option Char :=
  match cs with
  | [] => next
  | d :: _ => some d

/-- Greedy-with-backtracking end of a `[a-zA-Z'-]+\b` match inside the
maximal class run `run` (the character after the run being `next`): the
largest `k ≥ 1` such that a word boundary holds after the first `k`
characters, if any. -/
def findSplit : List Char → Option Char → Option Nat
  | [], _ => none
  | c :: cs, next =>
    match findSplit cs next with
    | some k => some (k + 1)
    | none =>
      if isWordChar c != wordnessO (afterChar cs next) then some 1 else none

theorem findSplit_bounds :
    ∀ (run : List Char) (next : Option Char) (k : Nat),
    findSplit run next = some k → 1 ≤ k ∧ k ≤ run.length := by
  intro run
  induction run with
  | nil => intro next k h; simp [findSplit] at h
  | cons c cs ih =>
    intro next k h
    rw [findSplit] at h
    rcases hr : findSplit cs next with _ | k' <;> rw [hr] at h
    · have h' : (if isWordChar c != wordnessO (afterChar cs next)
          then some 1 else none) = some k := h
      split at h'
      · obtain rfl : (1 : Nat) = k := by simpa using h'
        simp
      · simp at h'
    · have h' : some (k' + 1) = some k := h
      obtain ⟨h1, h2⟩ := ih next k' hr
      obtain rfl : k' + 1 = k := by simpa using h'
      simp only [List.length_cons]
      omega

/-- Global scan of `/\b[a-zA-Z'-]+\b/g`: at the position after `prev`, a
match attempt needs a boundary and a class character; the class run is
consumed greedily and backtracked to the largest end with a boundary
(`findSplit`); on failure the scan advances one character, on success it
resumes right after the match. -/
def splitWordsAux (prev : Option Char) : List Char → List (List Char)
  | [] => []
  | c :: cs =>
    if wordClass c && (wordnessO prev != isWordChar c) then
      match hfs : findSplit ((c :: cs).takeWhile wordClass)
          ((c :: cs).dropWhile wordClass).head? with
      | some k =>
        ((c :: cs).takeWhile wordClass).take k ::
          splitWordsAux (((c :: cs).takeWhile wordClass).take k).getLast?
            (((c :: cs).takeWhile wordClass).drop k ++
              (c :: cs).dropWhile wordClass)
      | none => splitWordsAux (some c) cs
    else splitWordsAux (some c) cs
termination_by l => l.length
decreasing_by
  · obtain ⟨hk1, hk2⟩ := findSplit_bounds _ _ _ hfs
    have hsplit : ((c :: cs).takeWhile wordClass).length +
        ((c :: cs).dropWhile wordClass).length = (c :: cs).length := by
      rw [← List.length_append, List.takeWhile_append_dropWhile]
    simp only [List.length_append, List.length_drop, List.length_cons] at *
    omega
  · simp only [List.length_cons]; omega
  · simp only [List.length_cons]; omega

/-- `splitWords` from `textAnalysis.js`:
`text.match(/\b[a-zA-Z'-]+\b/g) || []` behind a trim guard. -/
def splitWords (text : List Char) : List (List Char) :=
  if jsTrim text = [] then [] else splitWordsAux none text

/-- Sentence-ending punctuation class `[.!?]`. -/
def isSentPunct (c : Char) : Bool :=
  c = '.' || c = '!' || c = '?'

/-- `text.split(/[.!?]+\s*/)`: each separator is a maximal punctuation run
followed by the whitespace after it; `cur` is the current fragment,
reversed. -/
def sentSplitAux (cur : List Char) : List Char → List (List Char)
  | [] => [cur.reverse]
  | c :: cs =>
    if isSentPunct c then
      cur.reverse ::
        sentSplitAux [] (((c :: cs).dropWhile isSentPunct).dropWhile jsWhitespace)
    else sentSplitAux (c :: cur) cs
termination_by l => l.length
decreasing_by
  · have h1 := (List.dropWhile_sublist (l := c :: cs) (p := isSentPunct)).length_le
    have h2 := (List.dropWhile_sublist
      (l := (c :: cs).dropWhile isSentPunct) (p := jsWhitespace)).length_le
    have h3 : ((c :: cs).dropWhile isSentPunct).length ≤ cs.length := by
      rw [List.dropWhile_cons]
      simp only [*, if_true]
      exact (List.dropWhile_sublist (l := cs) (p := isSentPunct)).length_le
    simp only [List.length_cons] at *
    omega
  · simp only [List.length_cons]; omega

/-- `splitSentences` from `textAnalysis.js`: split on `/[.!?]+\s*/` and keep
the fragments with nonempty trim. -/
def splitSentences (text : List Char) : List (List Char) :=
  if jsTrim text = [] then []
  else (sentSplitAux [] text).filter (fun s => decide (jsTrim s ≠ []))

/-- The `nonAdverbs` exclusion set. -/
def nonAdverbs : List (List Char) :=
  List.map String.data
    ["only", "family", "early", "daily", "holy", "ugly", "lonely",
     "friendly", "lovely", "likely", "unlikely", "rally", "belly",
     "bully", "fly", "ally", "apply", "supply", "reply", "july",
     "italy", "multiply", "butterfly", "jelly", "lily", "assembly",
     "anomaly", "homily", "melancholy", "monopoly", "poly", "curly"]

/-- `countAdverbs` from `textAnalysis.js`: words ending in `ly`, longer than
3 characters, not in the exclusion set. -/
def countAdverbs (text : List Char) : Nat :=
  ((splitWords text).filter (fun w =>
    let lower := w.map jsToLower
    endsWithCh lower ['l', 'y'] && decide (3 < lower.length) &&
      !(nonAdverbs.contains lower))).length

/-- The auxiliary-verb alternatives of the passive-voice regex, in source
order. -/
def passiveAlternatives : List (List Char) :=
  List.map String.data
    ["is", "was", "were", "been", "being", "are", "am", "has been",
     "have been", "had been", "will be", "shall be", "could be", "would be",
     "might be", "must be"]

/-- Case-insensitive literal match of `a` (lowercase pattern) at the head of
`s`. -/
def matchesCIAt (a s : List Char) : Bool :=
  (s.take a.length).map jsToLower == a

/-- Attempt the body of
`/\b(is|...|must be)\s+(\w+ed|(\w+en))\b/i` at the current position (the
leading `\b` is checked by the caller): an alternative, then at least one
whitespace character, then a maximal `\w` run of length ≥ 3 ending in
`ed`/`en` (the trailing `\b` forces the run to be maximal).  Returns the last
matched character and the rest of the string. -/
def tryPassive (s : List Char) : Option (Char × List Char) :=
  match passiveAlternatives.find? (fun a => matchesCIAt a s) with
  | none => none
  | some a =>
    let s1 := s.drop a.length
    let sp := s1.takeWhile jsWhitespace
    if sp.isEmpty then none
    else
      let s2 := s1.drop sp.length
      let r := s2.takeWhile isWordChar
      if 3 ≤ r.length &&
          (endsWithCh (r.map jsToLower) ['e', 'd'] ||
           endsWithCh (r.map jsToLower) ['e', 'n']) then
        match r.getLast? with
        | some lastc => some (lastc, s2.drop r.length)
        | none => none
      else none

theorem tryPassive_rest_lt (s : List Char) (lastc : Char) (rest : List Char)
    (h : tryPassive s = some (lastc, rest)) : rest.length < s.length := by
  rw [tryPassive] at h
  rcases hf : passiveAlternatives.find? (fun a => matchesCIAt a s)
    with _ | a <;> rw [hf] at h
  · simp at h
  · have ha : a ∈ passiveAlternatives ∧ matchesCIAt a s :=
      ⟨List.mem_of_find?_eq_some hf, by
        have := List.find?_some hf
        simpa using this⟩
    have halen : 2 ≤ a.length := by
      have : ∀ x ∈ passiveAlternatives, 2 ≤ x.length := by decide
      exact this a ha.1
    have hals : a.length ≤ s.length := by
      have h2 : ((s.take a.length).map jsToLower) = a := by
        simpa [matchesCIAt] using ha.2
      have := congrArg List.length h2
      simp only [List.length_map, List.length_take] at this
      omega
    simp only at h
    split at h
    · simp at h
    · split at h
      · rcases hg : (((s.drop a.length).drop
            ((s.drop a.length).takeWhile jsWhitespace).length).takeWhile
              isWordChar).getLast? with _ | lc <;> rw [hg] at h
        · simp at h
        · simp only [Option.some.injEq, Prod.mk.injEq] at h
          obtain ⟨rfl, rfl⟩ := h
          have hd1 : (((s.drop a.length).drop
              ((s.drop a.length).takeWhile jsWhitespace).length).drop
                (((s.drop a.length).drop
                  ((s.drop a.length).takeWhile jsWhitespace).length).takeWhile
                    isWordChar).length).length ≤ (s.drop a.length).length := by
            simp only [List.length_drop]
            omega
          simp only [List.length_drop] at *
          omega
      · simp at h

/-- Global scan of the passive-voice regex, counting matches. -/
def countPassiveAux (prev : Option Char) : List Char → Nat
  | [] => 0
  | c :: cs =>
    if wordnessO prev != isWordChar c then
      match hp : tryPassive (c :: cs) with
      | some (lastc, rest) => 1 + countPassiveAux (some lastc) rest
      | none => countPassiveAux (some c) cs
    else countPassiveAux (some c) cs
termination_by l => l.length
decreasing_by
  · exact tryPassive_rest_lt _ _ _ hp
  · simp only [List.length_cons]; omega
  · simp only [List.length_cons]; omega

/-- Unfolding lemma for `countPassiveAux` with a non-dependent match. -/
theorem countPassiveAux_cons (prev : Option Char) (c : Char) (cs : List Char) :
    countPassiveAux prev (c :: cs) =
      if wordnessO prev != isWordChar c then
        match tryPassive (c :: cs) with
        | some (lastc, rest) => 1 + countPassiveAux (some lastc) rest
        | none => countPassiveAux (some c) cs
      else countPassiveAux (some c) cs := by
  by_cases hb : wordnessO prev != isWordChar c
  · rw [countPassiveAux, if_pos hb, if_pos hb]
    split
    · rename_i lastc rest heq
      rw [heq]
    · rename_i heq
      rw [heq]
  · rw [countPassiveAux, if_neg hb, if_neg hb]

/-- `countPassiveVoice` from `textAnalysis.js`. -/
def countPassiveVoice (text : List Char) : Nat :=
  countPassiveAux none text

/-! ### The metrics analyzer -/

/-- The `TextMetrics` value object; every field is a JS number, modelled as
an exact rational. -/
structure TextMetrics where
  wordCount : ℚ
  sentenceCount : ℚ
  avgSentenceLength : ℚ
  fleschKincaidGrade : ℚ
  fleschReadingEase : ℚ
  readingTime : ℚ
  passiveVoiceCount : ℚ
  adverbCount : ℚ
  syllableCount : ℚ
deriving DecidableEq

/-- `Math.round`: round half toward positive infinity. -/
def jsRound (q : ℚ) : ℚ :=
  ((⌊q + 1 / 2⌋ : ℤ) : ℚ)

/-- The all-zero metrics returned for empty or whitespace-only input. -/
def zeroMetrics : TextMetrics :=
  ⟨0, 0, 0, 0, 0, 0, 0, 0, 0⟩

/-- `analyzeText` from `textAnalysis.js`. -/
def analyzeText (text : List Char) : TextMetrics :=
  if jsTrim text = [] then zeroMetrics
  else
    let words := splitWords text
    let sentences := splitSentences text
    let wordCount : ℚ := words.length
    let sentenceCount : ℚ := max (sentences.length : ℚ) 1
    let avgSentenceLength : ℚ := wordCount / sentenceCount
    let syllableCount : ℚ := ((words.map countSyllables).sum : ℕ)
    let avgSyllablesPerWord : ℚ :=
      if 0 < wordCount then syllableCount / wordCount else 0
    let fleschKincaidGrade : ℚ :=
      if 0 < wordCount then
        0.39 * avgSentenceLength + 11.8 * avgSyllablesPerWord - 15.59
      else 0
    let fleschReadingEase : ℚ :=
      if 0 < wordCount then
        206.835 - 1.015 * avgSentenceLength - 84.6 * avgSyllablesPerWord
      else 0
    let readingTime : ℚ := jsRound (wordCount / 200 * 60)
    { wordCount := wordCount
      sentenceCount := sentenceCount
      avgSentenceLength := jsRound (avgSentenceLength * 10) / 10
      fleschKincaidGrade := jsRound (max 0 fleschKincaidGrade * 10) / 10
      fleschReadingEase := jsRound (min 100 (max 0 fleschReadingEase) * 10) / 10
      readingTime := readingTime
      passiveVoiceCount := (countPassiveVoice text : ℚ)
      adverbCount := (countAdverbs text : ℚ)
      syllableCount := syllableCount }

/-! ### Improvement scorer and summary generator -/

/-- `calculateImprovementScore` from `textAnalysis.js`.  The sequential
`totalScore` accumulation is written as the sum of the five contributions. -/
def calculateImprovementScore (beforeMetrics afterMetrics : TextMetrics) : ℚ :=
  if beforeMetrics.wordCount = 0 ∨ afterMetrics.wordCount = 0 then 0
  else
    let t1 : ℚ :=
      if 0 < beforeMetrics.fleschReadingEase then
        (afterMetrics.fleschReadingEase - beforeMetrics.fleschReadingEase) /
          beforeMetrics.fleschReadingEase * 0.30
      else 0
    let t2 : ℚ :=
      if 0 < beforeMetrics.fleschKincaidGrade then
        (beforeMetrics.fleschKincaidGrade - afterMetrics.fleschKincaidGrade) /
          beforeMetrics.fleschKincaidGrade * 0.25
      else 0
    let t3 : ℚ :=
      if 0 < beforeMetrics.avgSentenceLength then
        (beforeMetrics.avgSentenceLength - afterMetrics.avgSentenceLength) /
          beforeMetrics.avgSentenceLength * 0.20
      else 0
    let t4 : ℚ :=
      if 0 < beforeMetrics.passiveVoiceCount then
        (beforeMetrics.passiveVoiceCount - afterMetrics.passiveVoiceCount) /
          beforeMetrics.passiveVoiceCount * 0.15
      else if afterMetrics.passiveVoiceCount = 0 then 0
      else -(0.15 * 0.5)
    let t5 : ℚ :=
      if 0 < beforeMetrics.adverbCount then
        (beforeMetrics.adverbCount - afterMetrics.adverbCount) /
          beforeMetrics.adverbCount * 0.10
      else if 0 < afterMetrics.adverbCount then -(0.10 * 0.5)
      else 0
    jsRound ((t1 + t2 + t3 + t4 + t5) * 100)

/-- Decimal digits of a natural number. -/
def natDigitsCh (n : Nat) : List Char :=
  (toString n).data

/-- JS `Number#toString` for the values the analyzer produces: integers
print without a decimal point, exact tenths with one decimal digit.  (Other
rationals cannot reach the summary template; the last branch only keeps the
function total.) -/
def jsNumToString (q : ℚ) : List Char :=
  let sgn : List Char := if q < 0 then ['-'] else []
  let r : ℚ := |q|
  if r.den = 1 then sgn ++ natDigitsCh r.num.toNat
  else if (10 * r).den = 1 then
    sgn ++ natDigitsCh ((10 * r).num.toNat / 10) ++
      '.' :: natDigitsCh ((10 * r).num.toNat % 10)
  else sgn ++ natDigitsCh r.num.toNat ++ '/' :: natDigitsCh r.den

/-- The observation list assembled by `generateSummary` (its five
threshold-guarded `push`es, in order). -/
def observations (beforeMetrics afterMetrics : TextMetrics) :
    List (List Char) :=
  let wordDiff := afterMetrics.wordCount - beforeMetrics.wordCount
  let o1 : List (List Char) :=
    if wordDiff < -10 then ["Your revision is more concise".data]
    else if 10 < wordDiff then ["Your revision is longer".data]
    else []
  let gradeDiff :=
    afterMetrics.fleschKincaidGrade - beforeMetrics.fleschKincaidGrade
  let o2 : List (List Char) :=
    if gradeDiff < -1 then
      ["easier to read (grade level dropped from ".data ++
        jsNumToString beforeMetrics.fleschKincaidGrade ++ " to ".data ++
        jsNumToString afterMetrics.fleschKincaidGrade ++ ")".data]
    else if 1 < gradeDiff then
      ["more complex (grade level rose from ".data ++
        jsNumToString beforeMetrics.fleschKincaidGrade ++ " to ".data ++
        jsNumToString afterMetrics.fleschKincaidGrade ++ ")".data]
    else []
  let sentDiff :=
    afterMetrics.avgSentenceLength - beforeMetrics.avgSentenceLength
  let o3 : List (List Char) :=
    if sentDiff < -3 then ["uses shorter sentences".data]
    else if 3 < sentDiff then ["has longer sentences".data]
    else []
  let passiveDiff :=
    afterMetrics.passiveVoiceCount - beforeMetrics.passiveVoiceCount
  let o4 : List (List Char) :=
    if passiveDiff < 0 then ["uses more active voice".data]
    else if 0 < passiveDiff then ["introduces more passive voice".data]
    else []
  let adverbDiff := afterMetrics.adverbCount - beforeMetrics.adverbCount
  let o5 : List (List Char) :=
    if adverbDiff < -2 then ["cuts unnecessary adverbs".data]
    else if 2 < adverbDiff then ["adds more adverbs".data]
    else []
  o1 ++ o2 ++ o3 ++ o4 ++ o5

/-- `observations[0].charAt(0).toUpperCase() + observations[0].slice(1)`. -/
def capitalizeFirst : List Char → List Char
  | [] => []
  | c :: cs => jsToUpper c :: cs

/-- `generateSummary` from `textAnalysis.js`. -/
def generateSummary (beforeMetrics afterMetrics : TextMetrics)
    (improvementScore : ℚ) : List Char :=
  if beforeMetrics.wordCount = 0 ∨ afterMetrics.wordCount = 0 then
    "Enter text in both fields to see an analysis.".data
  else
    match observations beforeMetrics afterMetrics with
    | [] =>
      "The two versions are very similar in readability. The differences are minimal.".data
    | o0 :: rest =>
      let s1 := capitalizeFirst o0
      let s2 := s1 ++
        (match rest with
          | [] => []
          | [r] => " and ".data ++ r
          | r1 :: r2 :: rs =>
            ", ".data ++ List.intercalate ", ".data ((r1 :: r2 :: rs).dropLast) ++
              ", and ".data ++ (r1 :: r2 :: rs).getLastD [])
      let s3 := s2 ++ ".".data
      let s4 := s3 ++
        (if 5 < improvementScore then
          " Overall, this is a stronger version for a wider audience.".data
        else if improvementScore < -5 then
          " Consider simplifying sentences and using more direct language.".data
        else
          " The readability is roughly the same as the original.".data)
      if 20 < afterMetrics.avgSentenceLength then
        s4 ++ " Tip: Your average sentence is ".data ++
          jsNumToString afterMetrics.avgSentenceLength ++
          " words. Consider breaking up sentences longer than 20 words.".data
      else s4

/-! ### C7: zero word counts -/

/-- **C7.** If either metrics object has `wordCount = 0`,
`calculateImprovementScore` returns exactly `0`. -/
theorem calculateImprovementScore_zero_words (b a : TextMetrics)
    (h : b.wordCount = 0 ∨ a.wordCount = 0) :
    calculateImprovementScore b a = 0 := by
  rw [calculateImprovementScore, if_pos h]

/-- Witness for C7 at concrete metrics. -/
theorem calculateImprovementScore_zero_words_witness :
    calculateImprovementScore zeroMetrics zeroMetrics = 0 :=
  calculateImprovementScore_zero_words zeroMetrics zeroMetrics (Or.inl rfl)

/-! ### C6: the per-word syllable estimate -/

/-- The syllable algorithm exactly as the claim words it: lower-case and
strip non-letters; stripped length ≤ 2 gives 1; otherwise the count of
maximal `[aeiouy]+` runs with the three suffix adjustments, floored at 1. -/
def claimSyllables (word : List Char) : Nat :=
  let w := (word.map jsToLower).filter lowerAZ
  if w.length ≤ 2 then 1
  else
    let base := vowelRuns w
    let c1 :=
      if endsWithCh w ['e'] && !endsWithCh w ['l', 'e'] && decide (1 < base)
      then base - 1 else base
    let c2 :=
      if endsWithCh w ['e', 's'] && !endsWithCh w ['t', 'e', 's'] &&
         !endsWithCh w ['s', 'e', 's'] && decide (1 < c1)
      then c1 - 1 else c1
    let c3 :=
      if endsWithCh w ['e', 'd'] && !endsWithCh w ['t', 'e', 'd'] &&
         !endsWithCh w ['d', 'e', 'd'] && decide (1 < c2)
      then c2 - 1 else c2
    max 1 c3

/-- **C6 counterexample.** On a word with no letters (`"123"`) the source
returns 0 syllables, while the claim's algorithm (stripped length ≤ 2 gives
1, result floored at 1) predicts 1. -/
theorem countSyllables_no_letters_counterexample :
    countSyllables ['1', '2', '3'] = 0 ∧
      claimSyllables ['1', '2', '3'] = 1 ∧
      countSyllables ['1', '2', '3'] ≠ claimSyllables ['1', '2', '3'] := by
  decide

/-- **C6 (amended).** For every word, the source syllable estimate agrees
with the claim's algorithm except that a word whose stripped form is empty
gets 0 (not 1). -/
theorem countSyllables_spec (word : List Char) :
    countSyllables word =
      if (word.map jsToLower).filter lowerAZ = [] then 0
      else claimSyllables word := by
  unfold countSyllables claimSyllables
  by_cases h0 : (word.map jsToLower).filter lowerAZ = []
  · simp [h0]
  · rw [if_neg h0, if_neg h0]
    by_cases h2 : ((word.map jsToLower).filter lowerAZ).length ≤ 2
    · simp [h2]
    · rw [if_neg h2, if_neg h2]
      by_cases hb : vowelRuns ((word.map jsToLower).filter lowerAZ) = 0
      · simp [hb]
      · simp [hb]

/-! ### C4: structure of the improvement score -/

/-- The five weighted terms exactly as the claim describes them: a term with
`before = 0` contributes 0, except the passive-voice and adverb terms, which
charge a fixed penalty of `weight × 0.5` when `before = 0` and `after > 0`. -/
def claimScoreTerms (b a : TextMetrics) : ℚ :=
  (if b.fleschReadingEase = 0 then 0
   else (a.fleschReadingEase - b.fleschReadingEase) /
     b.fleschReadingEase * 0.30) +
  (if b.fleschKincaidGrade = 0 then 0
   else (b.fleschKincaidGrade - a.fleschKincaidGrade) /
     b.fleschKincaidGrade * 0.25) +
  (if b.avgSentenceLength = 0 then 0
   else (b.avgSentenceLength - a.avgSentenceLength) /
     b.avgSentenceLength * 0.20) +
  (if b.passiveVoiceCount = 0 then
     (if 0 < a.passiveVoiceCount then -(0.15 * 0.5) else 0)
   else (b.passiveVoiceCount - a.passiveVoiceCount) /
     b.passiveVoiceCount * 0.15) +
  (if b.adverbCount = 0 then
     (if 0 < a.adverbCount then -(0.10 * 0.5) else 0)
   else (b.adverbCount - a.adverbCount) / b.adverbCount * 0.10)

theorem ite_pos_eq_ite_zero {x : ℚ} (hx : 0 ≤ x) (v : ℚ) :
    (if 0 < x then v else 0) = (if x = 0 then 0 else v) := by
  rcases hx.lt_or_eq with h | h
  · rw [if_pos h, if_neg (ne_of_gt h)]
  · rw [if_neg (by rw [← h]; exact lt_irrefl 0), if_pos h.symm]

theorem ite_penalty_eq_eq {x y : ℚ} (hx : 0 ≤ x) (hy : 0 ≤ y) (v p : ℚ) :
    (if 0 < x then v else if y = 0 then 0 else p) =
      (if x = 0 then (if 0 < y then p else 0) else v) := by
  rcases hx.lt_or_eq with h | h
  · rw [if_pos h, if_neg (ne_of_gt h)]
  · rw [if_neg (by rw [← h]; exact lt_irrefl 0), if_pos h.symm]
    rcases hy.lt_or_eq with h' | h'
    · rw [if_neg (ne_of_gt h'), if_pos h']
    · rw [if_pos h'.symm, if_neg (by rw [← h']; exact lt_irrefl 0)]

theorem ite_penalty_lt_eq {x y : ℚ} (hx : 0 ≤ x) (v p : ℚ) :
    (if 0 < x then v else if 0 < y then p else 0) =
      (if x = 0 then (if 0 < y then p else 0) else v) := by
  rcases hx.lt_or_eq with h | h
  · rw [if_pos h, if_neg (ne_of_gt h)]
  · rw [if_neg (by rw [← h]; exact lt_irrefl 0), if_pos h.symm]

/-- **C4.** For metrics with nonzero word counts (and the nonnegative field
values the analyzer produces), the improvement score is the rounding of 100
times the claim's five-term sum: a term whose `before` value is 0 contributes
0, except passive voice and adverbs, which subtract `weight × 0.5` when
`before = 0` and `after > 0`. -/
theorem calculateImprovementScore_structure (b a : TextMetrics)
    (hbw : b.wordCount ≠ 0) (haw : a.wordCount ≠ 0)
    (h1 : 0 ≤ b.fleschReadingEase) (h2 : 0 ≤ b.fleschKincaidGrade)
    (h3 : 0 ≤ b.avgSentenceLength) (h4 : 0 ≤ b.passiveVoiceCount)
    (h5 : 0 ≤ a.passiveVoiceCount) (h6 : 0 ≤ b.adverbCount) :
    calculateImprovementScore b a = jsRound (claimScoreTerms b a * 100) := by
  rw [calculateImprovementScore,
    if_neg (by rintro (h | h) <;> [exact hbw h; exact haw h])]
  unfold claimScoreTerms
  rw [ite_pos_eq_ite_zero h1, ite_pos_eq_ite_zero h2, ite_pos_eq_ite_zero h3,
    ite_penalty_eq_eq h4 h5, ite_penalty_lt_eq h6]

/-- Witness for C4 at concrete metrics (zero before-passive, positive
after-passive: the fixed penalty path). -/
theorem calculateImprovementScore_structure_witness :
    calculateImprovementScore
        ⟨10, 2, 5, 4, 50, 3, 0, 1, 12⟩ ⟨8, 2, 4, 3, 60, 2, 1, 0, 9⟩ =
      jsRound (claimScoreTerms
        ⟨10, 2, 5, 4, 50, 3, 0, 1, 12⟩ ⟨8, 2, 4, 3, 60, 2, 1, 0, 9⟩ * 100) :=
  calculateImprovementScore_structure _ _
    (by norm_num) (by norm_num) (by norm_num) (by norm_num)
    (by norm_num) (by norm_num) (by norm_num) (by norm_num)

/-! ### C8: empty and whitespace-only inputs -/

theorem jsTrim_eq_nil_iff (s : List Char) :
    jsTrim s = [] ↔ ∀ c ∈ s, jsWhitespace c := by
  unfold jsTrim
  constructor
  · intro h c hc
    have h1 : (s.dropWhile jsWhitespace).reverse.dropWhile jsWhitespace = [] := by
      simpa [List.reverse_eq_nil_iff] using h
    have h2 : ∀ c ∈ (s.dropWhile jsWhitespace).reverse, jsWhitespace c := by
      rw [← List.dropWhile_eq_nil_iff]
      exact h1
    have h3 : ∀ c ∈ s.dropWhile jsWhitespace, jsWhitespace c := by
      intro c hc
      exact h2 c (List.mem_reverse.mpr hc)
    have h4 : ∀ c ∈ s.takeWhile jsWhitespace, jsWhitespace c :=
      fun c hc => List.mem_takeWhile_imp hc
    have h5 : c ∈ s.takeWhile jsWhitespace ++ s.dropWhile jsWhitespace := by
      rw [List.takeWhile_append_dropWhile]
      exact hc
    rcases List.mem_append.mp h5 with h' | h'
    · exact h4 c h'
    · exact h3 c h'
  · intro h
    have h1 : s.dropWhile jsWhitespace = [] :=
      List.dropWhile_eq_nil_iff.mpr h
    simp [h1]

theorem wordTokens_of_all_ws (s : List Char) (h : ∀ c ∈ s, jsWhitespace c) :
    wordTokens s = [] := by
  unfold wordTokens
  cases s with
  | nil => rw [tokenize]; rfl
  | cons c cs =>
    rw [tokenize]
    set p := fun d => jsWhitespace d == jsWhitespace c with hp
    set run := (c :: cs).takeWhile p with hrun
    have hdrop : (c :: cs).dropWhile p = [] := by
      rw [List.dropWhile_eq_nil_iff]
      intro d hd
      simp [hp, h d hd, h c (by simp)]
    rw [hdrop, tokenize]
    have htake : jsTrim run = [] := by
      rw [jsTrim_eq_nil_iff]
      intro d hd
      exact h d ((List.takeWhile_sublist p).subset (hrun ▸ hd))
    simp [htake]

/-- **C8.** For empty or whitespace-only inputs, `analyzeText` returns the
all-zero metrics object, `computeDiff` of two such strings is the empty op
sequence, and both views of that result are empty. -/
theorem empty_input_graceful (s t : List Char)
    (hs : ∀ c ∈ s, jsWhitespace c) (ht : ∀ c ∈ t, jsWhitespace c) :
    analyzeText s = zeroMetrics ∧ computeDiff s t = [] ∧
      getBeforeView (computeDiff s t) = [] ∧
      getAfterView (computeDiff s t) = [] := by
  have hdiff : computeDiff s t = [] := by
    unfold computeDiff
    rw [wordTokens_of_all_ws s hs, wordTokens_of_all_ws t ht]
    rw [backtrack, if_pos ⟨rfl, rfl⟩]
  refine ⟨?_, hdiff, ?_, ?_⟩
  · rw [analyzeText, if_pos ((jsTrim_eq_nil_iff s).mpr hs)]
  · rw [hdiff]; rfl
  · rw [hdiff]; rfl

/-- Witness for C8 on a two-space string and the empty string. -/
theorem empty_input_graceful_witness :
    analyzeText [' ', ' '] = zeroMetrics ∧ computeDiff [' ', ' '] [] = [] ∧
      getBeforeView (computeDiff [' ', ' '] []) = [] ∧
      getAfterView (computeDiff [' ', ' '] []) = [] :=
  empty_input_graceful [' ', ' '] [] (by decide) (by decide)

/-! ### C10: syllable count versus word count -/

theorem toNat_ofNat_of_lt {n : Nat} (h : n < 55296) :
    (Char.ofNat n).toNat = n := by
  unfold Char.ofNat
  split
  · rfl
  · rename_i hv
    exact absurd (Or.inl h) hv

theorem lowerAZ_jsToLower_of_letter {c : Char} (h : asciiLetter c = true) :
    lowerAZ (jsToLower c) = true := by
  simp only [asciiLetter, Bool.or_eq_true, Bool.and_eq_true,
    decide_eq_true_eq] at h
  unfold jsToLower lowerAZ
  by_cases hu : 65 ≤ c.toNat ∧ c.toNat ≤ 90
  · rw [if_pos hu, toNat_ofNat_of_lt (by omega)]
    simp only [Bool.and_eq_true, decide_eq_true_eq]
    omega
  · rw [if_neg hu]
    simp only [Bool.and_eq_true, decide_eq_true_eq]
    omega

/-- A word containing an ASCII letter gets at least one syllable. -/
theorem one_le_countSyllables_of_letter {w : List Char}
    (h : ∃ c ∈ w, asciiLetter c = true) : 1 ≤ countSyllables w := by
  obtain ⟨c, hc, hl⟩ := h
  unfold countSyllables
  have hne : (w.map jsToLower).filter lowerAZ ≠ [] := by
    intro hnil
    have hmem : jsToLower c ∈ (w.map jsToLower).filter lowerAZ := by
      rw [List.mem_filter]
      exact ⟨List.mem_map_of_mem _ hc, lowerAZ_jsToLower_of_letter hl⟩
    rw [hnil] at hmem
    exact absurd hmem (List.not_mem_nil _)
  rw [if_neg hne]
  by_cases h2 : ((w.map jsToLower).filter lowerAZ).length ≤ 2
  · rw [if_pos h2]
  · rw [if_neg h2]
    by_cases hb : vowelRuns ((w.map jsToLower).filter lowerAZ) = 0
    · simp only [hb, if_pos]
      exact le_rfl
    · simp only [hb, if_neg, ite_false]
      exact le_max_left 1 _

theorem length_le_sum_syllables (l : List (List Char))
    (h : ∀ w ∈ l, 1 ≤ countSyllables w) :
    l.length ≤ (l.map countSyllables).sum := by
  induction l with
  | nil => simp
  | cons x xs ih =>
    simp only [List.map_cons, List.sum_cons, List.length_cons]
    have h1 := h x (by simp)
    have h2 := ih (fun w hw => h w (by simp [hw]))
    omega

/-- Full evaluation of the analyzer on `"1''1"` (apostrophes written by code
point): the word regex matches the letterless word `"''"`. -/
theorem analyzeText_apos_eval :
    analyzeText ['1', Char.ofNat 39, Char.ofNat 39, '1'] =
      ⟨1, 1, 1, 0, 100, 0, 0, 0, 0⟩ := by
  have hw : splitWords ['1', Char.ofNat 39, Char.ofNat 39, '1'] =
      [[Char.ofNat 39, Char.ofNat 39]] := by
    simp [splitWords, splitWordsAux, findSplit, afterChar, wordnessO,
      isWordChar, asciiLetter, wordClass, jsTrim, jsWhitespace]
  have hs : splitSentences ['1', Char.ofNat 39, Char.ofNat 39, '1'] =
      [['1', Char.ofNat 39, Char.ofNat 39, '1']] := by
    simp [splitSentences, sentSplitAux, isSentPunct, jsTrim, jsWhitespace]
  have t1 : tryPassive ['1', Char.ofNat 39, Char.ofNat 39, '1'] = none := by
    decide
  have t2 : tryPassive [Char.ofNat 39, Char.ofNat 39, '1'] = none := by decide
  have t3 : tryPassive [Char.ofNat 39, '1'] = none := by decide
  have t4 : tryPassive ['1'] = none := by decide
  have hp : countPassiveVoice ['1', Char.ofNat 39, Char.ofNat 39, '1'] = 0 := by
    simp [countPassiveVoice, countPassiveAux_cons, countPassiveAux, t1, t2, t3,
      t4, wordnessO, isWordChar, asciiLetter]
  have had : countAdverbs ['1', Char.ofNat 39, Char.ofNat 39, '1'] = 0 := by
    rw [countAdverbs, hw]
    decide
  rw [analyzeText, if_neg (by decide)]
  rw [hw, hs, hp, had]
  have hsy : countSyllables [Char.ofNat 39, Char.ofNat 39] = 0 := by decide
  simp only [List.map_cons, List.map_nil, List.sum_cons, List.sum_nil,
    List.length_cons, List.length_nil, hsy, sup_eq_max, inf_eq_min]
  norm_num [jsRound, max_def, min_def, TextMetrics.mk.injEq]

/-- **C10 counterexample.** The word regex can extract a letterless word: on
`"1''1"` it matches `"''"`, so `analyzeText` reports `wordCount = 1` but
`syllableCount = 0`, refuting `syllableCount ≥ wordCount`. -/
theorem syllables_ge_words_counterexample :
    (analyzeText ['1', Char.ofNat 39, Char.ofNat 39, '1']).wordCount = 1 ∧
      (analyzeText ['1', Char.ofNat 39, Char.ofNat 39, '1']).syllableCount = 0 ∧
      ¬((analyzeText ['1', Char.ofNat 39, Char.ofNat 39, '1']).wordCount ≤
        (analyzeText ['1', Char.ofNat 39, Char.ofNat 39, '1']).syllableCount) := by
  rw [analyzeText_apos_eval]
  refine ⟨rfl, rfl, by norm_num⟩

/-- **C10 (amended).** If every word the word regex extracts contains at
least one ASCII letter, then the analyzer's syllable count is at least its
word count (each such word estimates at least one syllable). -/
theorem syllables_ge_words (s : List Char)
    (h : ∀ w ∈ splitWords s, ∃ c ∈ w, asciiLetter c = true) :
    (analyzeText s).wordCount ≤ (analyzeText s).syllableCount := by
  rw [analyzeText]
  split
  · exact le_rfl
  · simp only
    have hnat : (splitWords s).length ≤
        ((splitWords s).map countSyllables).sum :=
      length_le_sum_syllables _
        (fun w hw => one_le_countSyllables_of_letter (h w hw))
    exact_mod_cast hnat

/-- Witness for C10 on a string with ordinary words. -/
theorem syllables_ge_words_witness :
    (analyzeText "some words".data).wordCount ≤
      (analyzeText "some words".data).syllableCount :=
  syllables_ge_words "some words".data (by
    have hw : splitWords "some words".data =
        [['s', 'o', 'm', 'e'], ['w', 'o', 'r', 'd', 's']] := by
      simp [splitWords, splitWordsAux, findSplit, afterChar, wordnessO,
        isWordChar, asciiLetter, wordClass, jsTrim, jsWhitespace]
    rw [hw]
    decide)

/-! ### C9: inputs with no word-regex match -/

theorem not_word_of_ws {c : Char} (h : jsWhitespace c = true) :
    wordClass c = false ∧ isWordChar c = false := by
  simp only [jsWhitespace, Bool.or_eq_true, Bool.and_eq_true,
    decide_eq_true_eq] at h
  constructor <;> rw [Bool.eq_false_iff] <;> intro hc <;>
    simp only [wordClass, isWordChar, asciiLetter, Bool.or_eq_true,
      Bool.and_eq_true, decide_eq_true_eq] at hc <;> omega

theorem ws_of_toNat_32 {c : Char} (h : c.toNat = 32) :
    jsWhitespace c = true := by
  simp [jsWhitespace, h]

theorem letter_of_jsToLower_lowerAZ {c : Char}
    (h : lowerAZ (jsToLower c) = true) : asciiLetter c = true := by
  simp only [lowerAZ, Bool.and_eq_true, decide_eq_true_eq] at h
  simp only [asciiLetter, Bool.or_eq_true, Bool.and_eq_true,
    decide_eq_true_eq]
  unfold jsToLower at h
  by_cases hu : 65 ≤ c.toNat ∧ c.toNat ≤ 90
  · omega
  · rw [if_neg hu] at h
    omega

theorem toNat_32_of_jsToLower_32 {c : Char}
    (h : (jsToLower c).toNat = 32) : c.toNat = 32 := by
  unfold jsToLower at h
  by_cases hu : 65 ≤ c.toNat ∧ c.toNat ≤ 90
  · rw [if_pos hu, toNat_ofNat_of_lt (by omega)] at h
    omega
  · rwa [if_neg hu] at h

theorem wordClass_of_letter {c : Char} (h : asciiLetter c = true) :
    wordClass c = true := by
  simp [wordClass, h]

theorem isWordChar_of_letter {c : Char} (h : asciiLetter c = true) :
    isWordChar c = true := by
  simp [isWordChar, h]

/-- Splitting `takeWhile`/`dropWhile` over an append at a known failure
point. -/
theorem takeWhile_dropWhile_append (p : Char → Bool) (u v : List Char)
    (hu : ∀ x ∈ u, p x = true)
    (hv : ∀ d t, v = d :: t → p d = false) :
    (u ++ v).takeWhile p = u ∧ (u ++ v).dropWhile p = v := by
  induction u with
  | nil =>
    simp only [List.nil_append]
    cases v with
    | nil => simp
    | cons d t =>
      rw [List.takeWhile_cons, List.dropWhile_cons, hv d t rfl]
      simp
  | cons x xs ih =>
    have hx : p x = true := hu x (by simp)
    obtain ⟨ih1, ih2⟩ := ih (fun y hy => hu y (by simp [hy]))
    rw [List.cons_append, List.takeWhile_cons, List.dropWhile_cons, hx]
    simp [ih1, ih2]

/-- If a word boundary holds after the whole class run, `findSplit`
succeeds. -/
theorem findSplit_isSome_of_last :
    ∀ (run : List Char) (next : Option Char) (hne : run ≠ []),
    (isWordChar (run.getLast hne) != wordnessO next) = true →
    ∃ k, findSplit run next = some k := by
  intro run
  induction run with
  | nil => intro next hne _; exact absurd rfl hne
  | cons c cs ih =>
    intro next hne hb
    cases cs with
    | nil =>
      rw [findSplit]
      simp only [findSplit]
      rw [List.getLast_singleton] at hb
      rw [afterChar, hb]
      exact ⟨1, rfl⟩
    | cons d t =>
      have hlast : (c :: d :: t).getLast hne = (d :: t).getLast (by simp) := by
        rw [List.getLast_cons]
      rw [hlast] at hb
      obtain ⟨k, hk⟩ := ih next (by simp) hb
      rw [findSplit, hk]
      exact ⟨k + 1, rfl⟩

/-- Shape of every passive-voice alternative: a nonempty lower-case letter
block, followed by nothing or by a space. -/
theorem passiveAlternatives_shape :
    ∀ a ∈ passiveAlternatives,
      a.takeWhile lowerAZ ≠ [] ∧
      (a.dropWhile lowerAZ = [] ∨ (a.dropWhile lowerAZ).head? = some ' ') := by
  decide

/-- Any successful passive-voice match decomposes the text as a nonempty
letter block followed by a non-word character: the first word of the matched
auxiliary, then either the space inside a two-word auxiliary or the
whitespace required by `\s+`. -/
theorem tryPassive_decompose (c : Char) (cs : List Char) (lastc : Char)
    (rest : List Char) (htp : tryPassive (c :: cs) = some (lastc, rest)) :
    ∃ u w t, c :: cs = u ++ w :: t ∧ u ≠ [] ∧
      (∀ x ∈ u, asciiLetter x = true) ∧
      wordClass w = false ∧ isWordChar w = false := by
  rw [tryPassive] at htp
  rcases hf : passiveAlternatives.find? (fun a => matchesCIAt a (c :: cs))
    with _ | a <;> rw [hf] at htp
  · simp at htp
  · have hmatch : matchesCIAt a (c :: cs) = true := by
      have h := List.find?_some hf
      simpa using h
    have hamem : a ∈ passiveAlternatives := List.mem_of_find?_eq_some hf
    have hsp : (((c :: cs).drop a.length).takeWhile jsWhitespace).isEmpty
        = false := by
      by_contra hcon
      have hsp' : (((c :: cs).drop a.length).takeWhile jsWhitespace).isEmpty
          = true := by
        simpa using hcon
      simp only [hsp', if_true] at htp
      exact Option.noConfusion htp
    obtain ⟨hseg, hrest⟩ := passiveAlternatives_shape a hamem
    have hmatch' : ((c :: cs).take a.length).map jsToLower = a := by
      simpa [matchesCIAt] using hmatch
    have hsplit : ((c :: cs).take a.length).map jsToLower =
        a.takeWhile lowerAZ ++ a.dropWhile lowerAZ := by
      rw [hmatch', List.takeWhile_append_dropWhile]
    obtain ⟨u, v, huv, hu, hv⟩ := List.map_eq_append_iff.mp hsplit
    have hu_letters : ∀ x ∈ u, asciiLetter x = true := by
      intro x hx
      have hmem : jsToLower x ∈ a.takeWhile lowerAZ := by
        rw [← hu]
        exact List.mem_map_of_mem _ hx
      exact letter_of_jsToLower_lowerAZ (List.mem_takeWhile_imp hmem)
    have hu_ne : u ≠ [] := by
      intro h0
      rw [h0] at hu
      exact hseg hu.symm
    have htd : c :: cs = (c :: cs).take a.length ++ (c :: cs).drop a.length :=
      (List.take_append_drop _ _).symm
    rcases hrest with harest | harest
    · -- single-word auxiliary: `v = []`, the next character is `\s+`.
      have hv0 : v = [] := by
        rw [harest] at hv
        exact List.map_eq_nil.mp hv
      rw [hv0, List.append_nil] at huv
      rcases hdrop : (c :: cs).drop a.length with _ | ⟨w, t'⟩
      · rw [hdrop] at hsp
        simp at hsp
      · have hwsw : jsWhitespace w = true := by
        -- the `\s+` run is nonempty, so `w` is whitespace
          rw [hdrop] at hsp
          by_contra hcon
          have : jsWhitespace w = false := by simpa using hcon
          rw [List.takeWhile_cons, this] at hsp
          simp at hsp
        obtain ⟨hw1, hw2⟩ := not_word_of_ws hwsw
        refine ⟨u, w, t', ?_, hu_ne, hu_letters, hw1, hw2⟩
        rw [htd, huv, hdrop]
    · -- two-word auxiliary: the character after the letter block is `' '`.
      rcases hdw : a.dropWhile lowerAZ with _ | ⟨d, ar⟩
      · rw [hdw] at harest
        simp at harest
      · have hd : d = ' ' := by
          rw [hdw] at harest
          simpa using harest
        rw [hdw, hd] at hv
        rcases v with _ | ⟨w, v'⟩
        · simp at hv
        · simp only [List.map_cons, List.cons.injEq] at hv
          have hw32 : w.toNat = 32 := by
            apply toNat_32_of_jsToLower_32
            rw [hv.1]
            rfl
          obtain ⟨hw1, hw2⟩ := not_word_of_ws (ws_of_toNat_32 hw32)
          refine ⟨u, w, v' ++ (c :: cs).drop a.length, ?_, hu_ne,
            hu_letters, hw1, hw2⟩
          conv_lhs => rw [htd]
          rw [huv]
          simp

/-- If the word regex finds no match, the passive-voice regex finds no match
either: the first auxiliary word of any passive match, delimited by the
leading `\b` and the following space, would itself be a word match. -/
theorem countPassiveAux_eq_zero (s : List Char) :
    ∀ prev, splitWordsAux prev s = [] → countPassiveAux prev s = 0 := by
  induction s with
  | nil => intro prev _; rw [countPassiveAux]
  | cons c cs ih =>
    intro prev hsw
    have htail : splitWordsAux (some c) cs = [] := by
      have hsw' := hsw
      rw [splitWordsAux] at hsw'
      by_cases hcond : (wordClass c && (wordnessO prev != isWordChar c)) = true
      · rw [if_pos hcond] at hsw'
        split at hsw'
        · exact absurd hsw' (by simp)
        · exact hsw'
      · rw [if_neg hcond] at hsw'
        exact hsw'
    rw [countPassiveAux_cons]
    by_cases hb : (wordnessO prev != isWordChar c) = true
    · rw [if_pos hb]
      rcases htp : tryPassive (c :: cs) with _ | ⟨lastc, rest⟩
      · exact ih (some c) htail
      · exfalso
        obtain ⟨u, w, t, hceq, hu_ne, hu_letters, hw1, hw2⟩ :=
          tryPassive_decompose c cs lastc rest htp
        obtain ⟨htk, hdw⟩ := takeWhile_dropWhile_append wordClass u (w :: t)
          (fun x hx => wordClass_of_letter (hu_letters x hx))
          (by
            intro d t' he
            injection he with h1 _
            rw [← h1]
            exact hw1)
        have hbound : (isWordChar (u.getLast hu_ne) !=
            wordnessO (some w)) = true := by
          rw [isWordChar_of_letter (hu_letters _ (List.getLast_mem hu_ne))]
          simp [wordnessO, hw2]
        obtain ⟨k, hk⟩ := findSplit_isSome_of_last u (some w) hu_ne hbound
        have hc_mem : c ∈ u := by
          cases u with
          | nil => exact absurd rfl hu_ne
          | cons x xs =>
            have : c = x := by
              have := hceq
              simp only [List.cons_append, List.cons.injEq] at this
              exact this.1
            rw [this]
            simp
        have hcond : (wordClass c && (wordnessO prev != isWordChar c))
            = true := by
          rw [wordClass_of_letter (hu_letters c hc_mem), hb]
          rfl
        rw [splitWordsAux, if_pos hcond, hceq, htk, hdw] at hsw
        simp only [List.head?_cons] at hsw
        split at hsw
        · exact absurd hsw (by simp)
        · rename_i hnone
          rw [hk] at hnone
          simp at hnone
    · rw [if_neg hb]
      exact ih (some c) htail

/-- **C9 (amended).** For input with at least one non-whitespace character
but no word-regex match, `analyzeText` returns `wordCount = 0`,
`sentenceCount = max(#fragments, 1)` (at least 1, never 0), and every other
field 0. -/
theorem analyzeText_no_words (s : List Char)
    (hnws : ∃ c ∈ s, jsWhitespace c = false)
    (hw : splitWords s = []) :
    analyzeText s =
      { wordCount := 0,
        sentenceCount := max ((splitSentences s).length : ℚ) 1,
        avgSentenceLength := 0, fleschKincaidGrade := 0,
        fleschReadingEase := 0, readingTime := 0, passiveVoiceCount := 0,
        adverbCount := 0, syllableCount := 0 } := by
  have htrim : jsTrim s ≠ [] := by
    intro h0
    obtain ⟨c, hc, hcw⟩ := hnws
    rw [(jsTrim_eq_nil_iff s).mp h0 c hc] at hcw
    exact Bool.noConfusion hcw
  have haux : splitWordsAux none s = [] := by
    rw [splitWords, if_neg htrim] at hw
    exact hw
  have hpass : countPassiveVoice s = 0 := by
    rw [countPassiveVoice]
    exact countPassiveAux_eq_zero s none haux
  have hadv : countAdverbs s = 0 := by
    rw [countAdverbs, hw]
    rfl
  rw [analyzeText, if_neg htrim, hw, hpass, hadv]
  simp only [List.length_nil, List.map_nil, List.sum_nil, Nat.cast_zero]
  norm_num [jsRound, TextMetrics.mk.injEq, sup_eq_max, inf_eq_min, max_def,
    min_def]

/-- **C9 counterexample.** `"123. 456"` has no word-regex match and a
non-whitespace character, yet `sentenceCount` is 2, not 1: the claim's
"sentenceCount 1" fails as a universal statement. -/
theorem analyzeText_no_words_counterexample :
    splitWords "123. 456".data = [] ∧
      (∃ c ∈ "123. 456".data, jsWhitespace c = false) ∧
      (analyzeText "123. 456".data).sentenceCount = 2 := by
  have hw : splitWords "123. 456".data = [] := by
    simp [splitWords, splitWordsAux, findSplit, afterChar, wordnessO,
      isWordChar, asciiLetter, wordClass, jsTrim, jsWhitespace]
  have hs : splitSentences "123. 456".data =
      [['1', '2', '3'], ['4', '5', '6']] := by
    simp [splitSentences, sentSplitAux, isSentPunct, jsTrim, jsWhitespace]
  refine ⟨hw, ⟨'1', by decide, by decide⟩, ?_⟩
  rw [analyzeText, if_neg (by decide), hs]
  norm_num

/-- Witness for C9 on `"123"` (one fragment, so `sentenceCount = 1`). -/
theorem analyzeText_no_words_witness :
    analyzeText "123".data =
      { wordCount := 0,
        sentenceCount := max ((splitSentences "123".data).length : ℚ) 1,
        avgSentenceLength := 0, fleschKincaidGrade := 0,
        fleschReadingEase := 0, readingTime := 0, passiveVoiceCount := 0,
        adverbCount := 0, syllableCount := 0 } :=
  analyzeText_no_words "123".data ⟨'1', by decide, by decide⟩ (by
    simp [splitWords, splitWordsAux, findSplit, afterChar, wordnessO,
      isWordChar, asciiLetter, wordClass, jsTrim, jsWhitespace])

/-! ### C5: the tail structure of the generated summary -/

/-- The three fixed closing remarks, selected by the improvement score
(`> 5`, `< -5`, otherwise), as the claim states. -/
def closingRemark (score : ℚ) : List Char :=
  if 5 < score then
    " Overall, this is a stronger version for a wider audience.".data
  else if score < -5 then
    " Consider simplifying sentences and using more direct language.".data
  else " The readability is roughly the same as the original.".data

/-- The tip sentence, appended exactly when the after-text average sentence
length exceeds 20 words. -/
def tipOpt (afterMetrics : TextMetrics) : List Char :=
  if 20 < afterMetrics.avgSentenceLength then
    " Tip: Your average sentence is ".data ++
      jsNumToString afterMetrics.avgSentenceLength ++
      " words. Consider breaking up sentences longer than 20 words.".data
  else []

/-- **C5 (amended).** When both word counts are nonzero and at least one
observation threshold fires, the summary is some prefix followed by exactly
the score-selected closing remark, followed by the tip exactly when the
after-text average sentence length exceeds 20. -/
theorem generateSummary_ends_structure (b a : TextMetrics) (score : ℚ)
    (hbw : b.wordCount ≠ 0) (haw : a.wordCount ≠ 0)
    (hobs : observations b a ≠ []) :
    ∃ p, generateSummary b a score = p ++ closingRemark score ++ tipOpt a := by
  rw [generateSummary,
    if_neg (by rintro (h | h); exacts [hbw h, haw h])]
  rcases hol : observations b a with _ | ⟨o0, rest⟩
  · exact absurd hol hobs
  · rcases rest with _ | ⟨r1, rest'⟩
    · refine ⟨capitalizeFirst o0 ++ [] ++ ".".data, ?_⟩
      unfold closingRemark tipOpt
      split_ifs <;> simp [List.append_assoc]
    · rcases rest' with _ | ⟨r2, rs⟩
      · refine ⟨capitalizeFirst o0 ++ (" and ".data ++ r1) ++ ".".data, ?_⟩
        unfold closingRemark tipOpt
        split_ifs <;> simp [List.append_assoc]
      · refine ⟨capitalizeFirst o0 ++
          (", ".data ++ List.intercalate ", ".data ((r1 :: r2 :: rs).dropLast) ++
            ", and ".data ++ (r1 :: r2 :: rs).getLastD []) ++ ".".data, ?_⟩
        unfold closingRemark tipOpt
        split_ifs <;> simp [List.append_assoc]

/-- **C5 counterexample.** With identical metrics (word count 5, average
sentence length 25) no observation fires, and `generateSummary` returns the
fixed "very similar" sentence: it does not end with a closing remark and
tip, although both word counts are nonzero and the average sentence length
exceeds 20.  So the claim's "in general for all metrics with nonzero word
counts" part fails. -/
theorem generateSummary_ends_counterexample :
    (⟨5, 1, 25, 0, 0, 0, 0, 0, 5⟩ : TextMetrics).wordCount ≠ 0 ∧
      (⟨5, 1, 25, 0, 0, 0, 0, 0, 5⟩ : TextMetrics).avgSentenceLength > 20 ∧
      ¬∃ p, generateSummary ⟨5, 1, 25, 0, 0, 0, 0, 0, 5⟩
          ⟨5, 1, 25, 0, 0, 0, 0, 0, 5⟩ 0 =
        p ++ closingRemark 0 ++ tipOpt ⟨5, 1, 25, 0, 0, 0, 0, 0, 5⟩ := by
  refine ⟨by norm_num, by norm_num, ?_⟩
  rintro ⟨p, hp⟩
  have hobs : observations ⟨5, 1, 25, 0, 0, 0, 0, 0, 5⟩
      ⟨5, 1, 25, 0, 0, 0, 0, 0, 5⟩ = [] := by
    norm_num [observations]
  have hsum : generateSummary ⟨5, 1, 25, 0, 0, 0, 0, 0, 5⟩
      ⟨5, 1, 25, 0, 0, 0, 0, 0, 5⟩ 0 =
      "The two versions are very similar in readability. The differences are minimal.".data := by
    rw [generateSummary, if_neg (by norm_num), hobs]
  have hc : closingRemark 0 =
      " The readability is roughly the same as the original.".data := by
    rw [closingRemark, if_neg (by norm_num), if_neg (by norm_num)]
  have ht : tipOpt ⟨5, 1, 25, 0, 0, 0, 0, 0, 5⟩ =
      " Tip: Your average sentence is ".data ++ jsNumToString 25 ++
        " words. Consider breaking up sentences longer than 20 words.".data := by
    rw [tipOpt, if_pos (by norm_num)]
  rw [hsum, hc, ht] at hp
  have hlen := congrArg List.length hp
  simp only [List.length_append] at hlen
  have e1 : ("The two versions are very similar in readability. The differences are minimal.".data).length = 78 := rfl
  have e2 : ((" The readability is roughly the same as the original.".data).length) = 53 := rfl
  have e3 : ((" Tip: Your average sentence is ".data).length) = 31 := rfl
  have e4 : ((" words. Consider breaking up sentences longer than 20 words.".data).length) = 60 := rfl
  rw [e1, e2, e3, e4] at hlen
  omega

/-- Witness for C5: a shrinking revision (one observation fires), score 0,
short sentences (no tip). -/
theorem generateSummary_ends_structure_witness :
    ∃ p, generateSummary ⟨100, 1, 10, 0, 0, 0, 0, 0, 1⟩
        ⟨50, 1, 10, 0, 0, 0, 0, 0, 1⟩ 0 =
      p ++ closingRemark 0 ++ tipOpt ⟨50, 1, 10, 0, 0, 0, 0, 0, 1⟩ :=
  generateSummary_ends_structure _ _ 0 (by norm_num) (by norm_num)
    (by norm_num [observations])

end CopyComparer
